import Mathlib

/-!
Verification of the ingestion-and-retrieval pipeline of the RAG service.

The development shallowly embeds the Python sources under `app/`:
`main.py` (upload, background processing, query, retention sweep),
`config.py` (settings), `models.py` (request schemas), `embeddings.py`,
`logging_config.py` (the variant holding `process_vectors` and the health
checks) and `health_handler.py`.  Machine floats are modelled as rationals,
byte strings as `List UInt8`, and external collaborators (the embedding
model, the vector store, the relational store) as explicit function
parameters or state records, following the contracts stated in the design
document where the repository does not itself implement them.

The file is laid out as definitions first, then the theorems about them.
-/

/-- Embedding vectors; the model's output dimension is irrelevant here. -/
abbrev Vec := List ℚ

/-! ## Vector search (design §4.3)

`db.semantic_search` is called from `main.py` (`query_documents`) but not
implemented in the repository (`database.py` only builds the external
clients). -/

/-- One stored vector with its opaque payload. -/
structure StoredPoint where
  vec : Vec
  payload : String
deriving DecidableEq, Repr

/-- Modelled from the spec: `VectorIndex.search(query_vector, top_k,
threshold)` — `db.semantic_search` is absent from the sources (the vector
engine is external), so the search is taken from design §4.3: score every
stored vector against the query with the similarity function `sim`, keep
those scoring at least `threshold`, order by descending score (insertion
sort is stable, matching the stable tie-break), and return at most `topK`
`(payload, score)` pairs. -/
def semanticSearch (sim : Vec → Vec → ℚ) (store : List StoredPoint)
    (q : Vec) (topK : ℕ) (threshold : ℚ) : List (String × ℚ) :=
  ((((store.map (fun p => (p.payload, sim q p.vec))).filter
      (fun r => threshold ≤ r.2)).insertionSort
        (fun a b => b.2 ≤ a.2)).take topK)

/-- The descending-score comparison used by the search is total. -/
instance scoreOrderTotal :
    IsTotal (String × ℚ) (fun a b => b.2 ≤ a.2) :=
  ⟨fun a b => le_total b.2 a.2⟩

/-- The descending-score comparison used by the search is transitive. -/
instance scoreOrderTrans :
    IsTrans (String × ℚ) (fun a b => b.2 ≤ a.2) :=
  ⟨fun _ _ _ h1 h2 => le_trans h2 h1⟩

/-! ## Query endpoint (`main.py`, `query_documents`; `models.py`, `Query`) -/

/-- The request schema from `models.py`: a `Query` has a required `text`
and an `Optional[int] top_k` defaulting to 5.  There is no `threshold`
field. -/
structure Query where
  text : String
  top_k : Option ℤ := some 5
deriving DecidableEq, Repr

/-- A value a pydantic attribute lookup can produce on a `Query`. -/
inductive PyVal where
  | str (s : String)
  | int (n : ℤ)
  | pyNone
deriving DecidableEq, Repr

/-- Python attribute access on a `Query` instance: `models.py` declares
exactly the fields `text` and `top_k`, so any other attribute name has no
value (an `AttributeError` in Python). -/
def Query.getattr (q : Query) (name : String) : Option PyVal :=
  if name = "text" then some (.str q.text)
  else if name = "top_k" then
    some (match q.top_k with | some n => .int n | none => .pyNone)
  else none

/-- Python's `x or d` for an int-or-None `x`: `None` and `0` are falsy. -/
def pyIntOr (v : Option ℤ) (d : ℤ) : ℤ :=
  match v with
  | none => d
  | some x => if x = 0 then d else x

/-- A ranked row as `db.semantic_search` returns it to `query_documents`:
attributes `text`, `score`, `document_id`, `metadata`. -/
structure DbResult where
  text : String
  score : ℚ
  document_id : ℕ
  metadata : String
deriving DecidableEq, Repr

/-- The response schema from `models.py`: an answer string and a list of
source strings.  `models.py` declares no `confidence` field and no
`SearchResult` class at all. -/
structure Response where
  answer : String
  sources : List String
deriving DecidableEq, Repr

/-- An HTTP error outcome (`fastapi.HTTPException`). -/
structure HTTPError where
  code : ℕ
  detail : String
deriving DecidableEq, Repr

/-- Lines 221-245 of `main.py` evaluated against the classes `models.py`
actually provides.  Empty results: the code evaluates
`Response(answer="No relevant documents found", sources=[],
confidence=0.0)`; `models.py`'s `Response` has no `confidence` field and
pydantic v1 ignores unknown constructor keywords, so the constructed
response carries only the answer and the empty source list.  Nonempty
results: the code first builds `[SearchResult(...) for result in
results]`, but `models.py` defines no `SearchResult`, so the name lookup
raises and the handler's `except` clause turns it into an HTTP 500. -/
def assembleResponse (results : List DbResult) : Except HTTPError Response :=
  if results.isEmpty then
    .ok { answer := "No relevant documents found", sources := [] }
  else
    .error ⟨500, "name SearchResult is not defined"⟩

/-- The full `/query` handler from `main.py`: embed the text, read the
search parameters (`min(query.top_k or 5, 10)` and
`query.threshold or 0.7`), search, and assemble the response
(`assembleResponse`, lines 221-245); any exception in the body is
converted by the final `except` clause into an HTTP 500.  Reading
`query.threshold` consults `Query.getattr`, because `models.py` gives
`Query` no such field. -/
def queryDocuments (sim : Vec → Vec → ℚ) (store : List StoredPoint)
    (embedOne : String → Vec) (q : Query) : Except HTTPError Response :=
  let queryEmbedding := embedOne q.text
  let limit : ℤ := min (pyIntOr q.top_k 5) 10
  match q.getattr "threshold" with
  | none => .error ⟨500, "Query object has no attribute threshold"⟩
  | some v =>
    let threshold : ℚ := match v with | .int n => (n : ℚ) | _ => 7/10
    assembleResponse
      ((semanticSearch sim store queryEmbedding limit.toNat threshold).map
        (fun r => ⟨r.1, r.2, 0, ""⟩))

/-! ## Background ingestion (`main.py`, `process_document`)

`db.store_chunks` and `db.mark_document_failed` are called from `main.py`
but have no implementation under `app/` (`database.py` stops at the table
schema), so the store is modelled as explicit state per design §4.4:
`store_chunks` appends a batch of chunk/vector pairs, and
`mark_document_failed` records `failed` with the triggering error. -/

/-- Lifecycle status of one document. -/
inductive DocStatus where
  | pending
  | processing
  | completed
  | failed (reason : String)
deriving DecidableEq, Repr

/-- State the background task can see for one document: its status and
the chunk/vector pairs already persisted for it. -/
structure IngestState where
  status : DocStatus
  chunks : List (String × Vec)
deriving DecidableEq, Repr

/-- Modelled from the spec: `db.mark_document_failed(doc_id, reason)`
(absent from `database.py`) records status `failed` with the reason. -/
def markFailed (st : IngestState) (e : String) : IngestState :=
  { st with status := .failed e }

/-- Modelled from the spec: `db.store_chunks(doc_id, batch, embeddings)`
(absent from `database.py`) transactionally appends the batch's
chunk/vector pairs (§4.4). -/
def appendChunks (st : IngestState) (b : List String) (vs : List Vec) :
    IngestState :=
  { st with chunks := st.chunks ++ b.zip vs }

/-- The slicing loop `for i in range(0, len(chunks), bs): chunks[i:i+bs]`
as structural recursion on a fuel bound.  For `0 < bs` and
`l.length ≤ fuel` this is exactly the Python loop's batch sequence
(Python raises on a zero step, so `bs = 0` is outside the model and all
theorems assume `0 < bs`). -/
def chunkBatches (bs : ℕ) : ℕ → List α → List (List α)
  | _, [] => []
  | 0, _ :: _ => []
  | fuel + 1, x :: xs => (x :: xs).take bs :: chunkBatches bs fuel ((x :: xs).drop bs)

/-- The batch partition of a list, with enough fuel for any positive
batch size. -/
def toBatches (bs : ℕ) (l : List α) : List (List α) :=
  chunkBatches bs l.length l

/-- The per-batch loop body of `process_document`: embed the batch
(`embeddings.encode_batch`) and persist it (`db.store_chunks`); the first
raised error aborts the loop, everything already persisted stays. -/
def processBatches (embed : List String → Except String (List Vec))
    (store : List String → List Vec → Except String Unit) :
    List (List String) → IngestState → IngestState
  | [], st => st
  | b :: bs, st =>
    match embed b with
    | .error e => markFailed st e
    | .ok vs =>
      match store b vs with
      | .error e => markFailed st e
      | .ok _ => processBatches embed store bs (appendChunks st b vs)

/-- `process_document` from `main.py` (lines 170-195): decode the stored
bytes, chunk the text, embed and store batch by batch; the surrounding
`try/except` turns any raised error into `mark_document_failed`, so the
function is total — no error leaves the background task.  (On success the
code only logs; it never writes a `completed` status.) -/
def processDocument (decode : Except String String)
    (chunk : String → Except String (List String))
    (embed : List String → Except String (List Vec))
    (store : List String → List Vec → Except String Unit)
    (batchSize : ℕ) (st : IngestState) : IngestState :=
  match decode with
  | .error e => markFailed st e
  | .ok text =>
    match chunk text with
    | .error e => markFailed st e
    | .ok cs => processBatches embed store (toBatches batchSize cs) st

/-! ## Embedding batching (`embeddings.py`; `main.py` lines 176-179) -/

/-- Modelled from the spec: the embedding model is an opaque per-text
function `f` (§1, §4.2), and `Embeddings.encode` returns one vector per
input text, in order; `encode_batch` (called by `main.py` but absent from
`embeddings.py`) is the same operation applied to one batch. -/
def encodeSpec (f : String → Vec) (texts : List String) : List Vec :=
  texts.map f

/-- The batching loop of `process_document`: partition the texts into
batches of size `bs` and concatenate the per-batch encodings, exactly as
`main.py` accumulates `encode_batch` results. -/
def encodeBatched (f : String → Vec) (bs : ℕ) (texts : List String) :
    List Vec :=
  ((toBatches bs texts).map (fun b => encodeSpec f b)).flatten

/-! ## Retention sweep (`main.py`, `cleanup_old_documents`)

`db.delete_old_documents` is called with a cutoff and a batch size but has
no implementation under `app/`; modelled from design §4.6. -/

/-- Modelled from the spec: `db.delete_old_documents(cutoff, batch_size)`
(absent from `database.py`) deletes up to `batch_size` of the still
eligible documents and reports how many it deleted; the abstract state is
just the number of eligible documents. -/
def deleteOldDocuments (batchSize eligible : ℕ) : ℕ × ℕ :=
  (min eligible batchSize, eligible - min eligible batchSize)

/-- The `while True` loop of `cleanup_old_documents`: delete one batch and
stop as soon as a round deletes fewer than `batchSize`.  Returns the
per-round deletion counts; `none` means the fuel ran out before the loop
ended (used to express termination). -/
def cleanupRounds (batchSize : ℕ) : ℕ → ℕ → Option (List ℕ)
  | 0, _ => none
  | fuel + 1, eligible =>
    let d := (deleteOldDocuments batchSize eligible).1
    let rest := (deleteOldDocuments batchSize eligible).2
    if d < batchSize then some [d]
    else
      match cleanupRounds batchSize fuel rest with
      | some l => some (d :: l)
      | none => none

/-! ## Configuration (`config.py`, `Settings`) -/

/-- The settings record from `config.py` (fields not bearing on the
chunking claims are kept as the two identifier strings). -/
structure Settings where
  model_name : String
  collection_name : String
  chunk_size : ℤ
  chunk_overlap : ℤ
deriving DecidableEq, Repr

/-- Startup construction of `Settings` from the environment, as
`config.py` performs it: pydantic checks only that the values are
integers (here they already are), applies the defaults 500 and 50, and
imposes no positivity or `chunk_overlap < chunk_size` constraint — there
is no validator in the class, so no value combination is rejected.  The
`Except` codomain makes a startup rejection expressible. -/
def settingsStartup (csEnv coEnv : Option ℤ) : Except String Settings :=
  .ok { model_name := "microsoft/phi-2", collection_name := "documents",
        chunk_size := csEnv.getD 500, chunk_overlap := coEnv.getD 50 }

/-! ## Health aggregation (`health_handler.py`) -/

/-- One subsystem's entry in the health report: its status string plus
either its stats or the caught error text. -/
structure HealthEntry where
  status : String
  info : String
deriving DecidableEq, Repr

/-- `HealthMonitor.check_postgres`: the probe body runs under `try` and a
raised error is converted to an `unhealthy` entry carrying the error. -/
def checkPostgres (probe : Except String String) : HealthEntry :=
  match probe with
  | .ok stats => ⟨"healthy", stats⟩
  | .error e => ⟨"unhealthy", e⟩

/-- `HealthMonitor.check_qdrant`: same conversion as `check_postgres`. -/
def checkQdrant (probe : Except String String) : HealthEntry :=
  match probe with
  | .ok stats => ⟨"healthy", stats⟩
  | .error e => ⟨"unhealthy", e⟩

/-- The aggregated report of `health_check` in `health_handler.py`. -/
structure HealthReport where
  status : String
  postgres : HealthEntry
  qdrant : HealthEntry
  system : String
deriving DecidableEq, Repr

/-- `health_check` (lines 107-129): probe postgres and qdrant, gather the
system resource stats, and set the overall status to `healthy` exactly
when both database entries report `healthy`
(`all(s.get("status", "") == "healthy" for s in [pg, qdrant])`),
otherwise `degraded`.  The system resource probe returns raw stats with
no status field and does not enter the overall status. -/
def healthCheck (pg qd : Except String String) (sys : String) :
    HealthReport :=
  let p := checkPostgres pg
  let q := checkQdrant qd
  { status :=
      if p.status = "healthy" ∧ q.status = "healthy" then "healthy"
      else "degraded",
    postgres := p, qdrant := q, system := sys }

/-! ## Upload endpoint (`main.py`, `upload_documents`) -/

/-- The metadata record `upload_documents` stores per document (the
upload timestamp is irrelevant to the claims and omitted). -/
structure DocMeta where
  filename : String
  original_size : ℕ
  compressed_size : ℕ
  content_type : String
deriving DecidableEq, Repr

/-- The body of `upload_documents` up to the metadata store: an empty
byte content raises `HTTPException(400, "Empty file")` before anything is
written; otherwise the compressed record is stored
(`db.store_document_metadata`, modelled as appending to the document
list) and the new document's id is returned. -/
def uploadBody (compress : List UInt8 → List UInt8)
    (filename contentType : String) (content : List UInt8)
    (db : List DocMeta) : Except HTTPError (ℕ × List DocMeta) :=
  if content.isEmpty then .error ⟨400, "Empty file"⟩
  else
    .ok (db.length,
      db ++ [⟨filename, content.length, (compress content).length,
             contentType⟩])

/-- `str(e)` of a caught `HTTPException` as starlette renders it:
`"{code}: {detail}"`. -/
def httpErrorText (e : HTTPError) : String :=
  toString e.code ++ ": " ++ e.detail

/-- `upload_documents` with its outer `try/except`: any error raised in
the body — including the 400 for an empty file — is caught and re-raised
as `HTTPException(500, str(e))`; the error paths of the body precede the
store, so the document list is unchanged on them. -/
def uploadDocuments (compress : List UInt8 → List UInt8)
    (filename contentType : String) (content : List UInt8)
    (db : List DocMeta) : Except HTTPError ℕ × List DocMeta :=
  match uploadBody compress filename contentType content db with
  | .ok (docId, db2) => (.ok docId, db2)
  | .error e => (.error ⟨500, httpErrorText e⟩, db)

/-! ## Vector processing ids (`logging_config.py`, `process_vectors`) -/

/-- The qdrant collection as id-to-point bindings (vector plus payload
text). -/
abbrev QIndex := List (ℕ × (Vec × String))

/-- Modelled from the spec: one point of a qdrant `upsert` call —
insert-or-replace at its id (§4.3): an existing binding for the id is
overwritten, otherwise the point is appended. -/
def qdrantUpsertOne (idx : QIndex) (id : ℕ) (pt : Vec × String) : QIndex :=
  if idx.any (fun e => e.1 = id) then
    idx.map (fun e => if e.1 = id then (id, pt) else e)
  else idx ++ [(id, pt)]

/-- A whole `upsert(points=[...])` call: each point in order. -/
def qdrantUpsert (idx : QIndex) (points : List (ℕ × (Vec × String))) :
    QIndex :=
  points.foldl (fun acc p => qdrantUpsertOne acc p.1 p.2) idx

/-- The point list `process_vectors` builds:
`[{"id": i, "vector": vectors[i], "payload": {"text": chunks[i]}}
for i, ... in enumerate(zip(vectors, chunks))]` with
`vectors = embeddings.encode(chunks)`, generalised to a start index `n`
for the proofs (`process_vectors` itself uses `n = 0`). -/
def mkPointsFrom (f : String → Vec) (n : ℕ) :
    List String → List (ℕ × (Vec × String))
  | [] => []
  | c :: cs => (n, (f c, c)) :: mkPointsFrom f (n + 1) cs

/-- `process_vectors` from `logging_config.py` (lines 137-149): chunk ids
restart at 0 for every upload and the whole point list is upserted. -/
def processVectors (f : String → Vec) (chunks : List String)
    (idx : QIndex) : QIndex :=
  qdrantUpsert idx (mkPointsFrom f 0 chunks)

/-- Retrieval by id from the modelled collection. -/
def qLookup (idx : QIndex) (id : ℕ) : Option (Vec × String) :=
  (idx.find? (fun e => e.1 = id)).map (fun e => e.2)

/-! ## Theorems -/

/-- C1: for every query vector, `top_k` and threshold, the search returns
at most `top_k` results, every returned score is at least the threshold,
the results are sorted by descending score, and when no stored vector
reaches the threshold the result is the empty list (a normal value, not an
error — the function is total). -/
theorem C1_search_contract (sim : Vec → Vec → ℚ) (store : List StoredPoint)
    (q : Vec) (k : ℕ) (t : ℚ) :
    (semanticSearch sim store q k t).length ≤ k ∧
    (∀ r ∈ semanticSearch sim store q k t, t ≤ r.2) ∧
    (semanticSearch sim store q k t).Sorted (fun a b => b.2 ≤ a.2) ∧
    ((∀ p ∈ store, sim q p.vec < t) → semanticSearch sim store q k t = []) := by
  refine ⟨?_, ?_, ?_, ?_⟩
  · exact List.length_take_le _ _
  · intro r hr
    have hr' : r ∈ ((store.map (fun p => (p.payload, sim q p.vec))).filter
        (fun x => decide (t ≤ x.2))).insertionSort (fun a b => b.2 ≤ a.2) :=
      List.take_subset _ _ hr
    have hr'' : r ∈ (store.map (fun p => (p.payload, sim q p.vec))).filter
        (fun x => decide (t ≤ x.2)) := (List.mem_insertionSort _).1 hr'
    have := List.of_mem_filter hr''
    simpa using this
  · exact ((List.sorted_insertionSort _ _).sublist (List.take_sublist _ _))
  · intro h
    have hfil : (store.map (fun p => (p.payload, sim q p.vec))).filter
        (fun x => decide (t ≤ x.2)) = [] := by
      apply List.filter_eq_nil_iff.2
      intro a ha
      rcases List.mem_map.1 ha with ⟨p, hp, rfl⟩
      simpa using not_le.2 (h p hp)
    simp [semanticSearch, hfil]

/-- Concrete instance of the C1 contract: a single stored vector scoring 0
against the query fails threshold 1/2, so the search returns the empty
list. -/
theorem C1_search_contract_witness :
    (∀ p ∈ [StoredPoint.mk [1] "a"], (fun (_ _ : Vec) => (0 : ℚ)) [2] p.vec < 1/2) ∧
    semanticSearch (fun _ _ => 0) [StoredPoint.mk [1] "a"] [2] 5 (1/2) = [] := by
  refine ⟨by intro p _; norm_num, ?_⟩
  exact (C1_search_contract (fun _ _ => 0) [StoredPoint.mk [1] "a"] [2] 5 (1/2)).2.2.2
    (by intro p _; norm_num)

/-- C2: the claim describes the response assembly of `main.py` 221-245
as a normal outcome of the query operation, but on the sources that
outcome never happens: the concrete query below, against an empty index
where zero results qualify, is answered with an HTTP 500 (the
`query.threshold` attribute error strikes before lines 221-245 run)
instead of the claimed no-documents response; and even run directly,
the assembly cannot produce the claimed response — with zero rows the
constructed `models.py` `Response` silently loses the `confidence=0.0`
keyword (no such field exists), and with one row it raises on the
undefined name `SearchResult`, again an HTTP 500. -/
theorem C2_no_normal_outcome :
    queryDocuments (fun _ _ => 0) [] (fun _ => [1])
      { text := "hello", top_k := some 5 } =
      .error ⟨500, "Query object has no attribute threshold"⟩ ∧
    assembleResponse [] =
      .ok { answer := "No relevant documents found", sources := [] } ∧
    assembleResponse [⟨"a", 1/2, 0, "m"⟩] =
      .error ⟨500, "name SearchResult is not defined"⟩ := by
  refine ⟨?_, rfl, rfl⟩
  simp [queryDocuments, Query.getattr]

/-- C7: the claim reads the handler as searching with the requested
`top_k` clamped to 10 (default 5) and the query's threshold defaulting to
0.7.  On the sources this cannot happen: `models.py` gives `Query` no
`threshold` field, so evaluating `query.threshold` raises an
`AttributeError` and every query is turned into an HTTP 500 by the
handler's `except` clause — the search parameters are never used. -/
theorem C7_threshold_attribute_missing (sim : Vec → Vec → ℚ)
    (store : List StoredPoint) (embedOne : String → Vec) (q : Query) :
    queryDocuments sim store embedOne q =
      .error ⟨500, "Query object has no attribute threshold"⟩ := by
  simp [queryDocuments, Query.getattr]

/-- C5 as stated is false on the sources: the configuration with
`chunk_size = 500` and `chunk_overlap = 600` violates
`0 < chunk_overlap < chunk_size`, yet startup does not reject it —
`settingsStartup` returns no error for it. -/
theorem C5_counterexample :
    ¬((0 : ℤ) < 600 ∧ (600 : ℤ) < 500) ∧
    ¬∃ e, settingsStartup (some 500) (some 600) = .error e := by
  constructor
  · intro h
    exact absurd h.2 (by decide)
  · rintro ⟨e, h⟩
    simp [settingsStartup] at h

/-- C5 amended: a configuration whose `chunk_overlap` is not a positive
integer strictly below `chunk_size` is NOT rejected at startup —
`config.py` validates only the integer typing of the fields, so startup
accepts every such pair unchanged. -/
theorem C5_no_startup_validation (cs co : ℤ)
    (_h : ¬(0 < co ∧ co < cs)) :
    settingsStartup (some cs) (some co) =
      .ok { model_name := "microsoft/phi-2", collection_name := "documents",
            chunk_size := cs, chunk_overlap := co } := rfl

/-- Concrete instance of the amended C5: the invalid pair (500, 600) is
accepted at startup. -/
theorem C5_no_startup_validation_witness :
    ¬((0 : ℤ) < 600 ∧ (600 : ℤ) < 500) ∧
    settingsStartup (some 500) (some 600) =
      .ok { model_name := "microsoft/phi-2", collection_name := "documents",
            chunk_size := 500, chunk_overlap := 600 } :=
  ⟨by decide, C5_no_startup_validation 500 600 (by decide)⟩

/-- C8: the overall health status is `healthy` exactly when both probed
status-bearing subsystems (postgres and qdrant) succeed, and `degraded`
in every other case; a probe that throws becomes an `unhealthy` entry for
that subsystem alone while the other subsystem's entry is computed
unchanged from its own probe. -/
theorem C8_health_aggregation (pg qd : Except String String) (sys : String) :
    ((healthCheck pg qd sys).status = "healthy" ↔
      (∃ s, pg = .ok s) ∧ (∃ s, qd = .ok s)) ∧
    ((healthCheck pg qd sys).status = "healthy" ∨
      (healthCheck pg qd sys).status = "degraded") ∧
    (∀ e, pg = .error e →
      (healthCheck pg qd sys).postgres = ⟨"unhealthy", e⟩ ∧
      (healthCheck pg qd sys).qdrant = checkQdrant qd) ∧
    (∀ e, qd = .error e →
      (healthCheck pg qd sys).qdrant = ⟨"unhealthy", e⟩ ∧
      (healthCheck pg qd sys).postgres = checkPostgres pg) := by
  cases pg <;> cases qd <;>
    simp [healthCheck, checkPostgres, checkQdrant]

/-- Concrete instance of C8: postgres down and qdrant up yields a
`degraded` report that still carries both entries. -/
theorem C8_health_aggregation_witness :
    (Except.error "down" : Except String String) = .error "down" ∧
    (healthCheck (.error "down") (.ok "stats") "sys").postgres =
      ⟨"unhealthy", "down"⟩ ∧
    (healthCheck (.error "down") (.ok "stats") "sys").qdrant =
      checkQdrant (.ok "stats") ∧
    (healthCheck (.error "down") (.ok "stats") "sys").status = "degraded" := by
  have h := C8_health_aggregation (.error "down") (.ok "stats") "sys"
  refine ⟨rfl, (h.2.2.1 "down" rfl).1, (h.2.2.1 "down" rfl).2, ?_⟩
  rcases h.2.1 with hs | hs
  · exfalso
    rcases (h.1.1 hs).1 with ⟨s, hs2⟩
    exact Except.noConfusion hs2
  · exact hs

/-- C9: an upload whose byte content is empty fails with the
`Empty file` error (reported as HTTP 500 carrying `400: Empty file`,
because the handler's own `except` clause re-wraps the 400) and the
document store is left unchanged — no metadata record is created. -/
theorem C9_empty_upload (compress : List UInt8 → List UInt8)
    (filename contentType : String) (db : List DocMeta) :
    uploadDocuments compress filename contentType [] db =
      (.error ⟨500, "400: Empty file"⟩, db) := by
  simp [uploadDocuments, uploadBody, httpErrorText]
  rfl

/-- Every batch before the first failing one is embedded and persisted:
running the loop over `good ++ tl` where every batch in `good` embeds and
stores successfully equals running it over `tl` from the state extended
with the `good` batches' chunk/vector pairs. -/
theorem processBatches_ok_append
    (embed : List String → Except String (List Vec))
    (store : List String → List Vec → Except String Unit)
    (vecsOf : List String → List Vec) (good tl : List (List String))
    (st : IngestState)
    (hgood : ∀ b ∈ good, embed b = .ok (vecsOf b) ∧
      store b (vecsOf b) = .ok ()) :
    processBatches embed store (good ++ tl) st =
      processBatches embed store tl
        ⟨st.status,
         st.chunks ++ (good.map (fun b => b.zip (vecsOf b))).flatten⟩ := by
  induction good generalizing st with
  | nil => simp
  | cons b bs ih =>
    have hb := hgood b (by simp)
    simp only [List.cons_append, processBatches, hb.1, hb.2]
    rw [show bs.append tl = bs ++ tl from rfl,
      ih (appendChunks st b (vecsOf b))
        (fun b2 hb2 => hgood b2 (List.mem_cons_of_mem _ hb2))]
    simp [appendChunks]

/-- The loop stops at the first batch whose embedding or store raises,
marking the current state failed with that error. -/
theorem processBatches_first_fail
    (embed : List String → Except String (List Vec))
    (store : List String → List Vec → Except String Unit)
    (bad : List String) (rest : List (List String)) (st : IngestState)
    (e : String)
    (hbad : embed bad = .error e ∨
      ∃ vs, embed bad = .ok vs ∧ store bad vs = .error e) :
    processBatches embed store (bad :: rest) st = markFailed st e := by
  rcases hbad with h | ⟨vs, h1, h2⟩
  · simp only [processBatches, h]
  · simp only [processBatches, h1, h2]

/-- C3: whenever background ingestion raises at any step — decode, chunk,
or the embed/store of some batch — the document ends with status `failed`
carrying the triggering error, the chunks persisted by the earlier
successful batches are retained unchanged, and no error leaves the task
(`processDocument` is total, mirroring the handler's `try/except`). -/
theorem C3_background_failure_isolation (decode : Except String String)
    (chunk : String → Except String (List String))
    (embed : List String → Except String (List Vec))
    (store : List String → List Vec → Except String Unit)
    (batchSize : ℕ) (st : IngestState) :
    (∀ e, decode = .error e →
      processDocument decode chunk embed store batchSize st =
        ⟨.failed e, st.chunks⟩) ∧
    (∀ text e, decode = .ok text → chunk text = .error e →
      processDocument decode chunk embed store batchSize st =
        ⟨.failed e, st.chunks⟩) ∧
    (∀ text cs good bad rest e (vecsOf : List String → List Vec),
      decode = .ok text → chunk text = .ok cs →
      toBatches batchSize cs = good ++ bad :: rest →
      (∀ b ∈ good, embed b = .ok (vecsOf b) ∧
        store b (vecsOf b) = .ok ()) →
      (embed bad = .error e ∨
        ∃ vs, embed bad = .ok vs ∧ store bad vs = .error e) →
      processDocument decode chunk embed store batchSize st =
        ⟨.failed e,
         st.chunks ++ (good.map (fun b => b.zip (vecsOf b))).flatten⟩) := by
  refine ⟨?_, ?_, ?_⟩
  · intro e he
    subst he
    simp [processDocument, markFailed]
  · intro text e h1 h2
    subst h1
    simp [processDocument, h2, markFailed]
  · intro text cs good bad rest e vecsOf h1 h2 h3 h4 h5
    subst h1
    simp only [processDocument, h2]
    rw [h3,
      processBatches_ok_append embed store vecsOf good (bad :: rest) st h4,
      processBatches_first_fail embed store bad rest _ e h5]
    simp [markFailed]

/-- Concrete instance of C3: four chunks in batches of two, the second
batch's embedding raises, the first batch's two chunk/vector pairs stay
persisted and the document is failed with the raised error. -/
theorem C3_background_failure_isolation_witness :
    toBatches 2 ["a", "b", "c", "d"] = [["a", "b"]] ++ ["c", "d"] :: [] ∧
    processDocument (.ok "t") (fun _ => .ok ["a", "b", "c", "d"])
      (fun b => if b = ["c", "d"] then .error "boom"
                else .ok (b.map (fun _ => ([1] : Vec))))
      (fun _ _ => .ok ()) 2 ⟨.processing, []⟩ =
      ⟨.failed "boom", [("a", [1]), ("b", [1])]⟩ := by
  constructor
  · rfl
  · have h := (C3_background_failure_isolation (.ok "t")
      (fun _ => .ok ["a", "b", "c", "d"])
      (fun b => if b = ["c", "d"] then .error "boom"
                else .ok (b.map (fun _ => ([1] : Vec))))
      (fun _ _ => .ok ()) 2 ⟨.processing, []⟩).2.2
      "t" ["a", "b", "c", "d"] [["a", "b"]] ["c", "d"] [] "boom"
      (fun b => b.map (fun _ => ([1] : Vec)))
      rfl rfl rfl
      (by
        intro b hb
        simp only [List.mem_singleton] at hb
        subst hb
        exact ⟨rfl, rfl⟩)
      (Or.inl rfl)
    simpa using h

/-- With a positive batch size and enough fuel, concatenating the batch
partition gives back the original list: the slicing loop visits every
element exactly once, in order. -/
theorem chunkBatches_flatten (bs : ℕ) (hbs : 0 < bs) :
    ∀ (fuel : ℕ) (l : List String), l.length ≤ fuel →
      (chunkBatches bs fuel l).flatten = l := by
  intro fuel
  induction fuel with
  | zero =>
    intro l hl
    have : l = [] := List.length_eq_zero.mp (Nat.le_zero.mp hl)
    subst this
    rfl
  | succ n ih =>
    intro l hl
    cases l with
    | nil => rfl
    | cons x xs =>
      simp only [chunkBatches, List.flatten_cons]
      have hlen : ((x :: xs).drop bs).length ≤ n := by
        simp only [List.length_drop, List.length_cons]
        simp only [List.length_cons] at hl
        omega
      rw [ih ((x :: xs).drop bs) hlen]
      exact List.take_append_drop bs (x :: xs)

/-- C6: encoding returns one vector per input text in order, and batching
is semantically transparent — for any positive batch size, embedding the
texts batch by batch and concatenating equals embedding them all at
once. -/
theorem C6_batching_invariance (f : String → Vec) (bs : ℕ)
    (texts : List String) (hbs : 0 < bs) :
    encodeBatched f bs texts = encodeSpec f texts ∧
    (encodeBatched f bs texts).length = texts.length := by
  have h : encodeBatched f bs texts = encodeSpec f texts := by
    unfold encodeBatched encodeSpec
    calc ((toBatches bs texts).map (fun b => encodeSpec f b)).flatten
        = ((toBatches bs texts).map (List.map f)).flatten := rfl
      _ = ((toBatches bs texts).flatten).map f := (List.map_flatten f _).symm
      _ = texts.map f := by
          rw [toBatches, chunkBatches_flatten bs hbs texts.length texts le_rfl]
  exact ⟨h, by rw [h]; simp [encodeSpec]⟩

/-- Concrete instance of C6: three texts in batches of two encode to the
same vectors, in the same order, as a single call. -/
theorem C6_batching_invariance_witness :
    0 < 2 ∧
    encodeBatched (fun s => [(s.length : ℚ)]) 2 ["a", "bb", "ccc"] =
      encodeSpec (fun s => [(s.length : ℚ)]) ["a", "bb", "ccc"] :=
  ⟨by decide,
   (C6_batching_invariance (fun s => [(s.length : ℚ)]) 2 ["a", "bb", "ccc"]
     (by decide)).1⟩

/-- With a positive batch size the sweep loop always ends on its own —
fuel `n + 1` suffices for `n` eligible documents — and its rounds are:
every round but the last deletes exactly `batchSize` documents, the last
round deletes fewer than `batchSize`, and the rounds together delete all
`n` eligible documents. -/
theorem cleanupRounds_total (bs : ℕ) (hbs : 0 < bs) :
    ∀ n fuel, n < fuel →
      ∃ pre last, cleanupRounds bs fuel n = some (pre ++ [last]) ∧
        (∀ x ∈ pre, x = bs) ∧ last < bs ∧ (pre ++ [last]).sum = n := by
  intro n
  induction n using Nat.strong_induction_on with
  | _ n ih =>
    intro fuel hf
    cases fuel with
    | zero => omega
    | succ fuel =>
      by_cases h : n < bs
      · refine ⟨[], n, ?_, by simp, h, by simp⟩
        have hmin : min n bs = n := Nat.min_eq_left h.le
        simp [cleanupRounds, deleteOldDocuments, hmin, h]
      · push_neg at h
        have hmin : min n bs = bs := Nat.min_eq_right h
        obtain ⟨pre, last, heq, hpre, hlast, hsum⟩ :=
          ih (n - bs) (by omega) fuel (by omega)
        refine ⟨bs :: pre, last, ?_, ?_, hlast, ?_⟩
        · simp only [cleanupRounds, deleteOldDocuments, hmin]
          rw [if_neg (by omega), heq]
          rfl
        · intro x hx
          rcases List.mem_cons.mp hx with rfl | hx
          · rfl
          · exact hpre x hx
        · simp only [List.cons_append, List.sum_cons]
          simp only [List.sum_append] at hsum ⊢
          omega

/-- C4: the retention sweep terminates exactly when a round deletes fewer
than `batch_size` documents — every earlier round deletes exactly
`batch_size` and all eligible documents are deleted — and with batch size
100 and 250 eligible documents it performs exactly the three rounds
100, 100, 50. -/
theorem C4_sweep_termination (bs n : ℕ) (hbs : 0 < bs) :
    (∃ pre last, cleanupRounds bs (n + 1) n = some (pre ++ [last]) ∧
      (∀ x ∈ pre, x = bs) ∧ last < bs ∧ (pre ++ [last]).sum = n) ∧
    cleanupRounds 100 3 250 = some [100, 100, 50] := by
  refine ⟨cleanupRounds_total bs hbs n (n + 1) (by omega), ?_⟩
  rfl

/-- Concrete instance of C4: 250 eligible documents with batch size 100
sweep in rounds 100, 100, 50. -/
theorem C4_sweep_termination_witness :
    0 < 100 ∧ cleanupRounds 100 3 250 = some [100, 100, 50] :=
  ⟨by decide, (C4_sweep_termination 100 250 (by decide)).2⟩

/-- `find?` on a cons cell, phrased with `if` for rewriting. -/
theorem find?_cons_if {α : Type} (p : α → Bool) (a : α) (l : List α) :
    (a :: l).find? p = if p a then some a else l.find? p := by
  rw [List.find?_cons]
  split <;> simp_all

/-- Replacing the bindings of one id does not change what `find?` sees
for any other id. -/
theorem find?_upsert_map_ne (id id2 : ℕ) (pt : Vec × String)
    (h : id2 ≠ id) (l : QIndex) :
    (l.map (fun e => if e.1 = id then (id, pt) else e)).find?
        (fun e => e.1 = id2) =
      l.find? (fun e => e.1 = id2) := by
  induction l with
  | nil => rfl
  | cons e l ih =>
    rw [List.map_cons]
    by_cases he : e.1 = id
    · rw [if_pos he, find?_cons_if, find?_cons_if]
      have h1 : ¬((id, pt).1 = id2) := fun hh => h hh.symm
      have h2 : ¬(e.1 = id2) := by
        rw [he]
        exact fun hh => h hh.symm
      rw [if_neg (by simpa using h1), if_neg (by simpa using h2)]
      exact ih
    · rw [if_neg he, find?_cons_if, find?_cons_if]
      by_cases he2 : e.1 = id2
      · rw [if_pos (by simpa using he2), if_pos (by simpa using he2)]
      · rw [if_neg (by simpa using he2), if_neg (by simpa using he2)]
        exact ih

/-- When some binding for `id` exists, the replacement map leaves
`some (id, pt)` as the first binding `find?` sees for `id`. -/
theorem find?_upsert_map_hit (id : ℕ) (pt : Vec × String) (l : QIndex)
    (hmem : l.any (fun e => e.1 = id) = true) :
    (l.map (fun e => if e.1 = id then (id, pt) else e)).find?
      (fun e => e.1 = id) = some (id, pt) := by
  induction l with
  | nil => simp at hmem
  | cons e l ih =>
    rw [List.map_cons]
    by_cases he : e.1 = id
    · rw [if_pos he, find?_cons_if, if_pos (by simp)]
    · rw [if_neg he, find?_cons_if, if_neg (by simpa using he)]
      apply ih
      rcases (by simpa using hmem : e.1 = id ∨ l.any (fun e => e.1 = id) = true)
        with h | h
      · exact absurd h he
      · exact h

/-- Lookup after a single upsert: the upserted id now maps to the new
point; every other id is untouched. -/
theorem qLookup_upsertOne (idx : QIndex) (id : ℕ) (pt : Vec × String)
    (id2 : ℕ) :
    qLookup (qdrantUpsertOne idx id pt) id2 =
      if id2 = id then some pt else qLookup idx id2 := by
  by_cases hmem : idx.any (fun e => e.1 = id) = true
  · rw [qdrantUpsertOne, if_pos hmem]
    by_cases h : id2 = id
    · subst h
      rw [if_pos rfl, qLookup, find?_upsert_map_hit id2 pt idx hmem]
      rfl
    · rw [if_neg h, qLookup, qLookup, find?_upsert_map_ne id id2 pt h idx]
  · rw [qdrantUpsertOne, if_neg hmem]
    have habs : ∀ e ∈ idx, ¬(e.1 = id) := by
      intro e he hh
      exact hmem (List.any_eq_true.mpr ⟨e, he, by simpa using hh⟩)
    by_cases h : id2 = id
    · subst h
      rw [if_pos rfl, qLookup, List.find?_append]
      have hnone : idx.find? (fun e => e.1 = id2) = none :=
        List.find?_eq_none.mpr (fun e he => by simpa using habs e he)
      rw [hnone, find?_cons_if, if_pos (by simp)]
      rfl
    · rw [if_neg h, qLookup, qLookup, List.find?_append]
      have hone : (([(id, pt)] : QIndex)).find? (fun e => e.1 = id2) = none := by
        rw [find?_cons_if, if_neg (by simpa using fun hh => h hh.symm)]
        rfl
      rw [hone]
      simp

/-- Upserting points whose ids all start at or above `n` leaves every id
below `n` untouched. -/
theorem qLookup_mkPointsFrom_lt (f : String → Vec) (cs : List String)
    (i : ℕ) : ∀ (n : ℕ) (idx : QIndex), i < n →
      qLookup (qdrantUpsert idx (mkPointsFrom f n cs)) i = qLookup idx i := by
  induction cs with
  | nil =>
    intro n idx _
    rfl
  | cons c cs ih =>
    intro n idx hi
    simp only [mkPointsFrom, qdrantUpsert, List.foldl_cons]
    have step := ih (n + 1) (qdrantUpsertOne idx n (f c, c)) (by omega)
    simp only [qdrantUpsert] at step
    rw [step, qLookup_upsertOne, if_neg (by omega)]

/-- After upserting the points of `cs` starting at id `n`, id `n + j`
maps to the `j`-th chunk's vector and text. -/
theorem qLookup_mkPointsFrom_get (f : String → Vec) (cs : List String) :
    ∀ (n j : ℕ) (idx : QIndex) (h : j < cs.length),
      qLookup (qdrantUpsert idx (mkPointsFrom f n cs)) (n + j) =
        some (f (cs.get ⟨j, h⟩), cs.get ⟨j, h⟩) := by
  induction cs with
  | nil =>
    intro n j idx h
    simp at h
  | cons c cs ih =>
    intro n j idx h
    simp only [mkPointsFrom, qdrantUpsert, List.foldl_cons]
    cases j with
    | zero =>
      have step := qLookup_mkPointsFrom_lt f cs n (n + 1)
        (qdrantUpsertOne idx n (f c, c)) (by omega)
      simp only [qdrantUpsert] at step
      simp only [Nat.add_zero]
      rw [step, qLookup_upsertOne, if_pos rfl]
      simp
    | succ j =>
      rw [show n + (j + 1) = (n + 1) + j from by omega]
      have hj : j < cs.length := by
        simpa using Nat.lt_of_succ_lt_succ h
      have step := ih (n + 1) j (qdrantUpsertOne idx n (f c, c)) hj
      simp only [qdrantUpsert] at step
      rw [step]
      simp

/-- The ids `process_vectors` assigns are exactly `n, n+1, ...` down the
chunk list. -/
theorem mkPointsFrom_map_fst (f : String → Vec) :
    ∀ (cs : List String) (n : ℕ),
      (mkPointsFrom f n cs).map Prod.fst = List.range' n cs.length := by
  intro cs
  induction cs with
  | nil =>
    intro n
    rfl
  | cons c cs ih =>
    intro n
    simp only [mkPointsFrom, List.map_cons, List.length_cons,
      List.range'_succ, ih]

/-- C10: `process_vectors` numbers its points by the chunk's zero-based
index within its own upload (ids `0, ..., len-1`), so ids repeat across
documents, and processing a second upload after a first one overwrites the
index at every id the second upload uses: id `j` afterwards holds the
second upload's vector and chunk text. -/
theorem C10_vector_id_collision (f : String → Vec) (A B : List String)
    (idx : QIndex) :
    ((mkPointsFrom f 0 B).map Prod.fst = List.range B.length) ∧
    (∀ j (h : j < B.length),
      qLookup (processVectors f B (processVectors f A idx)) j =
        some (f (B.get ⟨j, h⟩), B.get ⟨j, h⟩)) := by
  constructor
  · rw [mkPointsFrom_map_fst, List.range_eq_range']
  · intro j h
    have := qLookup_mkPointsFrom_get f B 0 j (processVectors f A idx) h
    simpa [processVectors] using this

/-- Concrete instance of C10: after uploads `["x", "y"]` then `["z"]`,
id 0 holds the second upload's point. -/
theorem C10_vector_id_collision_witness :
    (0 : ℕ) < (["z"] : List String).length ∧
    qLookup (processVectors (fun s => [(s.length : ℚ)]) ["z"]
      (processVectors (fun s => [(s.length : ℚ)]) ["x", "y"] [])) 0 =
      some ([(1 : ℚ)], "z") := by
  refine ⟨by decide, ?_⟩
  have h := (C10_vector_id_collision (fun s => [(s.length : ℚ)])
    ["x", "y"] ["z"] []).2 0 (by decide)
  simpa using h
